import Mathlib

/-!
Verification of the role-renaming engine in `Role_Rename.py`.

The engine's text transformations (`format_file_name`,
`escape_special_characters`, the two inline `re.sub` rewrites in
`process_role`) are embedded as functions on `List Char`.  The regex
substitutions are embedded as a left-to-right scanner (`scanAll`) that at
each position tries the (deterministic) pattern matcher and, on a match,
emits the replacement and resumes after the match, exactly as `re.sub`
does for these patterns (none of them can match the empty string, and
none needs backtracking: every subpattern's follow set is disjoint from
the characters it consumes).

Modelling notes, stated once here:
* Python's `\s` (in `re`, on `str`) and `str.strip()` use one and the
  same finite set of whitespace characters; `isPySpace` below is that
  exact set (checked against CPython over all codepoints), so the
  matchers and `pyStrip` are exact on every input.
* Python's `\w` matches the underscore and every Unicode alphanumeric
  character; `isWordChar` below embeds its restriction to ASCII, where
  `\w` is exactly `[A-Za-z0-9_]`.  The one theorem whose truth depends
  on which characters `\w` keeps (the file-name pattern claim) therefore
  carries an explicit all-ASCII hypothesis on the role name; outside
  ASCII the program keeps word characters such as `é` in the file name,
  which that claim's correction records.  The remaining theorems use the
  file-name function only parametrically (the same name term appears in
  hypothesis and conclusion) or at concrete ASCII names.
* A replacement string is inserted literally; Python's group-reference
  syntax inside a replacement value is not modelled (the replacement
  values produced here contain no backslashes).
* The filesystem is modelled as a list of (directory, file name,
  content) entries in a fixed enumeration order; `os.walk` order is
  implementation-defined in the source, and the list order refines it.
  Write/remove faults are injected via boolean-valued fault functions; a
  failing write or remove raises (is caught by the `except` in the
  source) and leaves the filesystem unchanged.
-/

namespace RoleRename

abbrev Str := List Char

/-- The exact set of characters matched by Python's `\s` and stripped
by `str.strip()` (both use the same Unicode-whitespace test): U+0009 to
U+000D, U+001C to U+0020, U+0085, U+00A0, U+1680, U+2000 to U+200A,
U+2028, U+2029, U+202F, U+205F, U+3000 — checked against CPython over
all codepoints. -/
def isPySpace (c : Char) : Bool :=
  (9 ≤ c.val && c.val ≤ 13) || (28 ≤ c.val && c.val ≤ 32)
  || c.val = 0x85 || c.val = 0xa0 || c.val = 0x1680
  || (0x2000 ≤ c.val && c.val ≤ 0x200a)
  || c.val = 0x2028 || c.val = 0x2029 || c.val = 0x202f || c.val = 0x205f
  || c.val = 0x3000

/-- Python `str.strip()` (exact: it strips precisely the `isPySpace`
characters from both ends). -/
def pyStrip (s : Str) : Str :=
  ((s.dropWhile isPySpace).reverse.dropWhile isPySpace).reverse

/-- A character matched by Python's `\w`, restricted to ASCII, where
`\w` is exactly `[A-Za-z0-9_]`.  Python's `\w` additionally matches
every non-ASCII Unicode alphanumeric character, which this embedding
does not model; see the module notes for how the one affected claim is
scoped. -/
def isWordChar (c : Char) : Bool := c.isAlphanum || c = '_'

/-- One character of `re.sub(r'[^\w\-]', '_', role_name)`, exact for
ASCII characters (see `isWordChar`). -/
def sanitizeChar (c : Char) : Char :=
  if isWordChar c || c = '-' then c else '_'

/-- Embedding of `format_file_name` from the source: sanitize and wrap.
Exact for ASCII role names; for a non-ASCII role name the program keeps
the Unicode word characters that `sanitizeChar` replaces. -/
def format_file_name (role_name : Str) : Str :=
  "NAB_Bundle_".data ++ role_name.map sanitizeChar ++ ".xml".data

/-- Strip a literal from the front of a string, or fail. -/
def dropLit : Str → Str → Option Str
  | [], s => some s
  | _ :: _, [] => none
  | l :: ls, c :: cs => if c = l then dropLit ls cs else none

/-- The double-quote character. -/
def qc : Char := '\x22'

/-- The literal `displayName="`. -/
def dnLit : Str := "displayName=\x22".data

/-- The literal `name="`. -/
def nmLit : Str := "name=\x22".data

/-- The literal `<Bundle`. -/
def tokLit : Str := "<Bundle".data

/-- The inserted attribute text `disabled="true" ` (with trailing space). -/
def disabledIns : Str := "disabled=\x22true\x22 ".data

/-- Matcher for the pattern `(displayName=")[^"]*(")\s+(name=")[^"]*(")`
at the start of the string; returns the remainder after the match.  The
pattern is deterministic: each `[^"]*` is followed by `"` and the `\s+`
is followed by `n`, so greedy maximal munch is the unique match. -/
def matchIdent (s : Str) : Option Str :=
  match dropLit dnLit s with
  | none => none
  | some s1 =>
    match List.dropWhile (fun c => c != qc) s1 with
    | [] => none
    | _ :: s3 =>
      if (List.takeWhile isPySpace s3).isEmpty then none
      else
        match dropLit nmLit (List.dropWhile isPySpace s3) with
        | none => none
        | some s5 =>
          match List.dropWhile (fun c => c != qc) s5 with
          | [] => none
          | _ :: s7 => some s7

/-- Matcher for the pattern `(<Bundle\s+)` at the start of the string;
returns the matched text (the group) and the remainder. -/
def matchTok (s : Str) : Option (Str × Str) :=
  match dropLit tokLit s with
  | none => none
  | some s1 =>
    if (List.takeWhile isPySpace s1).isEmpty then none
    else some (tokLit ++ List.takeWhile isPySpace s1, List.dropWhile isPySpace s1)

/-- The replacement `\1NEW\2 \3NEW\4` of the identity rewrite: note the
single literal space between the two attributes. -/
def identRepl (newEsc : Str) : Str :=
  dnLit ++ newEsc ++ qc :: ' ' :: (nmLit ++ newEsc ++ [qc])

/-- Scanner step for the identity rewrite. -/
def stepIdent (newEsc : Str) (s : Str) : Option (Str × Str) :=
  match matchIdent s with
  | none => none
  | some rem => some (identRepl newEsc, rem)

/-- Scanner step for the disabled-marker insertion: emit the matched
group followed by `disabled="true" `. -/
def stepTok (s : Str) : Option (Str × Str) :=
  match matchTok s with
  | none => none
  | some (grp, rem) => some (grp ++ disabledIns, rem)

/-- Scanner step for `str.replace`: a literal pattern. -/
def stepLit (pat rep : Str) (s : Str) : Option (Str × Str) :=
  if pat.isEmpty then none
  else if s.take pat.length = pat then some (rep, s.drop pat.length) else none

/-- Fuelled left-to-right scan-and-replace.  On a match, emit the
replacement and resume after the matched text; otherwise keep one
character and move on.  Fuel `s.length` always suffices because every
match consumes at least one character. -/
def scanGo (step : Str → Option (Str × Str)) : Nat → Str → Str
  | 0, s => s
  | _ + 1, [] => []
  | f + 1, c :: rest =>
    match step (c :: rest) with
    | some (out, rem) => out ++ scanGo step f rem
    | none => c :: scanGo step f rest

/-- Replace every (leftmost, non-overlapping) match in the string. -/
def scanAll (step : Str → Option (Str × Str)) (s : Str) : Str :=
  scanGo step s.length s

/-- Python `str.replace` (all occurrences, left to right). -/
def pyReplace (s pat rep : Str) : Str := scanAll (stepLit pat rep) s

/-- Embedding of `escape_special_characters` from the source: the five
replacements
applied in the dictionary's insertion order `&`, `<`, `>`, `"`, `'`. -/
def escape_special_characters (role_name : Str) : Str :=
  pyReplace
    (pyReplace
      (pyReplace
        (pyReplace
          (pyReplace role_name "&".data "&amp;".data)
          "<".data "&lt;".data)
        ">".data "&gt;".data)
      "\x22".data "&quot;".data)
    "\x27".data "&apos;".data

/-- The identity rewrite
`re.sub(r'(displayName=")[^"]*(")\s+(name=")[^"]*(")', ..., content)`
from `process_role`. -/
def rewrite_identity (newEsc : Str) (content : Str) : Str :=
  scanAll (stepIdent newEsc) content

/-- The disabled-marker insertion
`re.sub(r'(<Bundle\s+)', r'\1disabled="true" ', content)` from
`process_role`. -/
def mark_disabled (content : Str) : Str :=
  scanAll stepTok content

/-! ## Filesystem model -/

/-- A directory path, as a list of components. -/
abbrev Dirname := List Str

/-- One file on disk. -/
structure FileEntry where
  dir : Dirname
  fname : Str
  content : Str
deriving DecidableEq

/-- The filesystem: files in a fixed enumeration order (refining the
implementation-defined `os.walk` order). -/
abbrev FS := List FileEntry

/-- Injected write/remove faults: `f dir name = true` means the
operation on that path raises. -/
abbrev Faults := Dirname → Str → Bool

/-- Tests whether `root` is `dir` itself or an ancestor of it (so files in `dir` are
visited by `os.walk(root)`). -/
def underDir : Dirname → Dirname → Bool
  | [], _ => true
  | _ :: _, [] => false
  | r :: rs, d :: ds => r = d && underDir rs ds

/-- Embedding of `find_file_recursive` from the source: the first file under `root`
whose base name equals `name`; returns its directory and content (the
source returns the path and then reads it). -/
def find_file_recursive (fs : FS) (root : Dirname) (name : Str) :
    Option (Dirname × Str) :=
  match fs with
  | [] => none
  | e :: rest =>
    if underDir root e.dir && e.fname = name then some (e.dir, e.content)
    else find_file_recursive rest root name

/-- Content of the file at an exact path, if present. -/
def lookupFile (fs : FS) (d : Dirname) (n : Str) : Option Str :=
  match fs with
  | [] => none
  | e :: rest =>
    if e.dir = d ∧ e.fname = n then some e.content else lookupFile rest d n

/-- Embedding of `os.path.exists` for an exact path. -/
def existsFile (fs : FS) (d : Dirname) (n : Str) : Bool :=
  (lookupFile fs d n).isSome

/-- A successful `open(..., 'w')`: overwrite in place, or create. -/
def writeOk (fs : FS) (d : Dirname) (n : Str) (c : Str) : FS :=
  if existsFile fs d n then
    fs.map fun e => if e.dir = d ∧ e.fname = n then ⟨e.dir, e.fname, c⟩ else e
  else fs ++ [⟨d, n, c⟩]

/-- A successful `os.remove` of an exact path. -/
def removeOk (fs : FS) (d : Dirname) (n : Str) : FS :=
  fs.filter fun e => ¬(e.dir = d ∧ e.fname = n)

/-- Embedding of `process_role` from the source, for one CSV row
`(origRaw, newRaw)`.  Returns the value returned by the Python function
(`some original_role` when the role is to be recorded as unresolved,
`none` on success) together with the resulting filesystem.  A raising
write/remove (per the fault functions) is caught by the `except` and
yields the `some` return with the filesystem as it stood. -/
def process_role (origRaw newRaw : Str) (bundle_folder disabled_folder : Dirname)
    (wf rf : Faults) (fs : FS) : Option Str × FS :=
  let original_role := pyStrip origRaw
  let new_role_escaped := escape_special_characters (pyStrip newRaw)
  let old_file_name := format_file_name original_role
  let new_file_name := format_file_name (pyStrip newRaw)
  match find_file_recursive fs bundle_folder old_file_name with
  | none => (some original_role, fs)
  | some (old_dir, content) =>
    if wf old_dir new_file_name then (some original_role, fs)
    else
      let fs1 := writeOk fs old_dir new_file_name (rewrite_identity new_role_escaped content)
      if wf disabled_folder old_file_name then (some original_role, fs1)
      else
        let fs2 := writeOk fs1 disabled_folder old_file_name (mark_disabled content)
        if existsFile fs2 old_dir old_file_name then
          if rf old_dir old_file_name then (some original_role, fs2)
          else (none, removeOk fs2 old_dir old_file_name)
        else (none, fs2)

/-! ## Batch runner model -/

/-- The parsed CSV mapping file: the header row, and for each data row
the values of the two required columns (rows are assumed complete, as
`csv.DictReader` keys every row by the header names). -/
structure CsvFile where
  headers : List Str
  rows : List (Str × Str)
deriving DecidableEq

/-- The header `Original Role Name`. -/
def hdrOriginal : Str := "Original Role Name".data

/-- The header `New Role Name`. -/
def hdrNew : Str := "New Role Name".data

/-- The name of the unresolved-roles report file. -/
def notFoundFileName : Str := "not_found_roles.txt".data

/-- One `f.write(f"{role}\n")` per role, in order. -/
def reportText (roles : List Str) : Str :=
  roles.foldr (fun r acc => r ++ '\n' :: acc) []

/-- Result of the row loop in `process_files`. -/
inductive LoopRes where
  | formatError
  | ok (report : List Str)
deriving DecidableEq

/-- The `for row in reader` loop of `process_files`: per-row header
check (the keys of a `DictReader` row are the header names), then
`process_role`, accumulating returned (unresolved) role names. -/
def batchLoop (headers : List Str) (rows : List (Str × Str))
    (bf df : Dirname) (wf rf : Faults) (fs : FS) (acc : List Str) :
    LoopRes × FS :=
  match rows with
  | [] => (.ok acc.reverse, fs)
  | (o, n) :: rest =>
    if hdrOriginal ∉ headers ∨ hdrNew ∉ headers then (.formatError, fs)
    else
      match process_role o n bf df wf rf fs with
      | (some r, fs') => batchLoop headers rest bf df wf rf fs' (r :: acc)
      | (none, fs') => batchLoop headers rest bf df wf rf fs' acc

/-- Outcome of one `process_files` run, as observable from its logging
and early returns. -/
inductive BatchOutcome where
  | missingCsv
  | formatError
  | reportWriteError
  | completed (report : List Str)
deriving DecidableEq

/-- Embedding of `process_files` from the source.  A `csv` of `none` models a missing
CSV file.  After the loop, a non-empty unresolved list is written to
`bundle_folder/not_found_roles.txt` (a raising write is caught by the
outer `except`). -/
def process_files (csv : Option CsvFile) (bf df : Dirname)
    (wf rf : Faults) (fs : FS) : BatchOutcome × FS :=
  match csv with
  | none => (.missingCsv, fs)
  | some file =>
    match batchLoop file.headers file.rows bf df wf rf fs [] with
    | (.formatError, fs') => (.formatError, fs')
    | (.ok report, fs') =>
      if report.isEmpty then (.completed report, fs')
      else if wf bf notFoundFileName then (.reportWriteError, fs')
      else (.completed report, writeOk fs' bf notFoundFileName (reportText report))

/-! ## Helper lemmas: spans and literal stripping -/

/-- Returns `true` when the string does not start with a `p`-character (so a
greedy `p`-run cannot extend into it). -/
def headNotB (p : Char → Bool) : Str → Bool
  | [] => true
  | c :: _ => !p c

theorem length_dropWhile (p : Char → Bool) :
    ∀ s : Str, (List.dropWhile p s).length ≤ s.length := by
  intro s
  induction s with
  | nil => simp
  | cons c rest ih =>
    rw [List.dropWhile_cons]
    split
    · exact Nat.le_succ_of_le ih
    · simp

theorem dropLit_len : ∀ (lit s r : Str), dropLit lit s = some r →
    r.length + lit.length = s.length := by
  intro lit
  induction lit with
  | nil =>
    intro s r h
    simp [dropLit] at h
    simp [h]
  | cons l ls ih =>
    intro s r h
    cases s with
    | nil => simp [dropLit] at h
    | cons c cs =>
      simp only [dropLit] at h
      split at h
      · have := ih cs r h
        simp only [List.length_cons]
        omega
      · exact absurd h (by simp)

theorem dropLit_self : ∀ (lit s : Str), dropLit lit (lit ++ s) = some s := by
  intro lit
  induction lit with
  | nil => intro s; rfl
  | cons l ls ih => intro s; simp [dropLit, ih]

theorem spanPast (p : Char → Bool) : ∀ (a t : Str), a.all p = true →
    headNotB p t = true →
    List.takeWhile p (a ++ t) = a ∧ List.dropWhile p (a ++ t) = t := by
  intro a
  induction a with
  | nil =>
    intro t _ ht
    cases t with
    | nil => simp
    | cons c r =>
      simp only [headNotB, Bool.not_eq_true'] at ht
      simp [List.takeWhile_cons, List.dropWhile_cons, ht]
  | cons x a' ih =>
    intro t ha ht
    simp only [List.all_cons, Bool.and_eq_true] at ha
    obtain ⟨hx, ha'⟩ := ha
    obtain ⟨h1, h2⟩ := ih t ha' ht
    simp [List.takeWhile_cons, List.dropWhile_cons, hx, h1, h2]

/-! ## Helper lemmas: the matchers consume at least one character -/

theorem matchTok_len : ∀ (s g r : Str), matchTok s = some (g, r) →
    r.length < s.length := by
  intro s g r h
  unfold matchTok at h
  split at h
  · simp at h
  · rename_i s1 hd
    have hlen := dropLit_len tokLit s s1 hd
    have htok : tokLit.length = 7 := by decide
    split at h
    · simp at h
    · simp only [Option.some.injEq, Prod.mk.injEq] at h
      have h2 := length_dropWhile isPySpace s1
      rw [h.2] at h2
      omega

theorem stepTok_shrink : ∀ (s o r : Str),
    stepTok s = some (o, r) → r.length < s.length := by
  intro s o r h
  unfold stepTok at h
  cases hm : matchTok s with
  | none => rw [hm] at h; simp at h
  | some pr =>
    rw [hm] at h
    simp only [Option.some.injEq, Prod.mk.injEq] at h
    rw [← h.2]
    exact matchTok_len s pr.1 pr.2 hm

theorem stepLit_shrink (pat rep : Str) : ∀ (s o r : Str),
    stepLit pat rep s = some (o, r) → r.length < s.length := by
  intro s o r h
  unfold stepLit at h
  split at h
  · simp at h
  · split at h
    · rename_i hne heq
      simp only [Option.some.injEq, Prod.mk.injEq] at h
      have hlen : pat.length ≤ s.length := by
        have := congrArg List.length heq
        simp only [List.length_take] at this
        omega
      have hpos : 0 < pat.length := by
        cases pat with
        | nil => simp at hne
        | cons _ _ => simp
      rw [← h.2]
      simp only [List.length_drop]
      omega
    · simp at h

/-! ## Helper lemmas: the generic scanner -/

theorem scanGo_eq (step : Str → Option (Str × Str))
    (hs : ∀ s o r, step s = some (o, r) → r.length < s.length) :
    ∀ (f₁ f₂ : Nat) (s : Str), s.length ≤ f₁ → s.length ≤ f₂ →
    scanGo step f₁ s = scanGo step f₂ s := by
  intro f₁
  induction f₁ with
  | zero =>
    intro f₂ s h1 _
    have hnil : s = [] := List.eq_nil_of_length_eq_zero (Nat.le_zero.mp h1)
    subst hnil
    cases f₂ <;> rfl
  | succ f ih =>
    intro f₂ s h1 h2
    cases s with
    | nil => cases f₂ <;> rfl
    | cons c rest =>
      cases f₂ with
      | zero => simp at h2
      | succ g =>
        simp only [scanGo]
        cases hstep : step (c :: rest) with
        | none =>
          simp only [List.length_cons] at h1 h2
          show c :: scanGo step f rest = c :: scanGo step g rest
          rw [ih g rest (by omega) (by omega)]
        | some pr =>
          obtain ⟨o, r⟩ := pr
          have hr := hs _ _ _ hstep
          simp only [List.length_cons] at h1 h2 hr
          show o ++ scanGo step f r = o ++ scanGo step g r
          rw [ih g r (by omega) (by omega)]

theorem scanAll_cons_none (step : Str → Option (Str × Str)) {c : Char}
    {rest : Str} (h : step (c :: rest) = none) :
    scanAll step (c :: rest) = c :: scanAll step rest := by
  unfold scanAll
  simp only [List.length_cons, scanGo, h]

theorem scanAll_match (step : Str → Option (Str × Str))
    (hs : ∀ s o r, step s = some (o, r) → r.length < s.length)
    {s o r : Str} (h : step s = some (o, r)) :
    scanAll step s = o ++ scanAll step r := by
  cases s with
  | nil =>
    have := hs _ _ _ h
    simp at this
  | cons c rest =>
    unfold scanAll
    simp only [List.length_cons, scanGo, h]
    have hr := hs _ _ _ h
    simp only [List.length_cons] at hr
    rw [scanGo_eq step hs rest.length r.length r (by omega) le_rfl]

theorem scanAll_id (step : Str → Option (Str × Str)) :
    ∀ s : Str, (∀ i < s.length, step (List.drop i s) = none) →
    scanAll step s = s := by
  intro s
  induction s with
  | nil => intro _; rfl
  | cons c rest ih =>
    intro h
    have h0 : step (c :: rest) = none := by
      have := h 0 (by simp)
      simpa using this
    rw [scanAll_cons_none step h0]
    rw [ih fun i hi => by
      have := h (i + 1) (by simp only [List.length_cons]; omega)
      simpa using this]

theorem scanAll_decomp (step : Str → Option (Str × Str)) :
    ∀ (pre rest : Str),
    (∀ i < pre.length, step (List.drop i (pre ++ rest)) = none) →
    scanAll step (pre ++ rest) = pre ++ scanAll step rest := by
  intro pre
  induction pre with
  | nil => intro rest _; rfl
  | cons c pre' ih =>
    intro rest h
    have h0 : step (c :: (pre' ++ rest)) = none := by
      have := h 0 (by simp)
      simpa using this
    rw [List.cons_append, scanAll_cons_none step h0]
    rw [ih rest fun i hi => by
      have := h (i + 1) (by simp only [List.length_cons]; omega)
      simpa using this]
    simp

theorem stepTok_none {s : Str} (h : matchTok s = none) : stepTok s = none := by
  simp [stepTok, h]

/-! ## Helper lemmas: building a match -/

theorem matchTok_mk (ws rest : Str) (hws : ws.all isPySpace = true)
    (hne : ws ≠ []) (hrest : headNotB isPySpace rest = true) :
    matchTok (tokLit ++ (ws ++ rest)) = some (tokLit ++ ws, rest) := by
  unfold matchTok
  obtain ⟨ht, hd⟩ := spanPast isPySpace ws rest hws hrest
  have hemp : ws.isEmpty = false := by
    cases ws with
    | nil => exact absurd rfl hne
    | cons _ _ => rfl
  simp only [dropLit_self, ht, hd, hemp, Bool.false_eq_true, if_false]

theorem lookupFile_writeOk_self (fs : FS) (d : Dirname) (n : Str) (c : Str) :
    lookupFile (writeOk fs d n c) d n = some c := by
  unfold writeOk
  split
  · rename_i hex
    induction fs with
    | nil => simp [existsFile, lookupFile] at hex
    | cons e rest ih =>
      by_cases he : e.dir = d ∧ e.fname = n
      · simp [lookupFile, he]
      · have hex' : existsFile rest d n = true := by
          unfold existsFile lookupFile at hex
          rw [if_neg he] at hex
          exact hex
        simp only [List.map_cons, if_neg he, lookupFile, he, if_false]
        exact ih hex'
  · rename_i hex
    induction fs with
    | nil => simp [lookupFile]
    | cons e rest ih =>
      have he : ¬(e.dir = d ∧ e.fname = n) := by
        intro hcon
        unfold existsFile lookupFile at hex
        rw [if_pos hcon] at hex
        simp at hex
      have hex' : ¬existsFile rest d n = true := by
        intro hcon
        unfold existsFile lookupFile at hex
        rw [if_neg he] at hex
        exact hex hcon
      simp only [List.cons_append, lookupFile, if_neg he]
      exact ih hex'

theorem lookupFile_map_ne (d : Dirname) (n : Str) (c : Str) (d' : Dirname)
    (n' : Str) (h : ¬(d' = d ∧ n' = n)) : ∀ fs : FS,
    lookupFile (fs.map fun e =>
      if e.dir = d ∧ e.fname = n then ⟨e.dir, e.fname, c⟩ else e) d' n' =
    lookupFile fs d' n' := by
  intro fs
  induction fs with
  | nil => rfl
  | cons e rest ih =>
    by_cases hw : e.dir = d ∧ e.fname = n
    · have hq : ¬(e.dir = d' ∧ e.fname = n') := by
        rintro ⟨q1, q2⟩
        exact h ⟨q1 ▸ hw.1, q2 ▸ hw.2⟩
      simp only [List.map_cons, if_pos hw, lookupFile, if_neg hq]
      exact ih
    · simp only [List.map_cons, if_neg hw, lookupFile]
      split
      · rfl
      · exact ih

theorem lookupFile_append_one_ne (d : Dirname) (n : Str) (c : Str)
    (d' : Dirname) (n' : Str) (h : ¬(d' = d ∧ n' = n)) : ∀ fs : FS,
    lookupFile (fs ++ [⟨d, n, c⟩]) d' n' = lookupFile fs d' n' := by
  intro fs
  induction fs with
  | nil =>
    have h' : ¬((⟨d, n, c⟩ : FileEntry).dir = d' ∧
        (⟨d, n, c⟩ : FileEntry).fname = n') := by
      rintro ⟨q1, q2⟩
      exact h ⟨q1.symm, q2.symm⟩
    simp only [List.nil_append, lookupFile, if_neg h']
  | cons e rest ih =>
    simp only [List.cons_append, lookupFile]
    split
    · rfl
    · exact ih

theorem lookupFile_writeOk_ne (fs : FS) (d : Dirname) (n : Str) (c : Str)
    (d' : Dirname) (n' : Str) (h : ¬(d' = d ∧ n' = n)) :
    lookupFile (writeOk fs d n c) d' n' = lookupFile fs d' n' := by
  unfold writeOk
  split
  · exact lookupFile_map_ne d n c d' n' h fs
  · exact lookupFile_append_one_ne d n c d' n' h fs

theorem lookupFile_removeOk_self (fs : FS) (d : Dirname) (n : Str) :
    lookupFile (removeOk fs d n) d n = none := by
  unfold removeOk
  induction fs with
  | nil => rfl
  | cons e rest ih =>
    by_cases he : e.dir = d ∧ e.fname = n
    · rw [List.filter_cons_of_neg (by simp [he.1, he.2])]
      exact ih
    · rw [List.filter_cons_of_pos (by simp only [decide_eq_true_eq]; exact he)]
      simp only [lookupFile, if_neg he]
      exact ih

theorem lookupFile_removeOk_ne (fs : FS) (d : Dirname) (n : Str)
    (d' : Dirname) (n' : Str) (h : ¬(d' = d ∧ n' = n)) :
    lookupFile (removeOk fs d n) d' n' = lookupFile fs d' n' := by
  unfold removeOk
  induction fs with
  | nil => rfl
  | cons e rest ih =>
    by_cases he : e.dir = d ∧ e.fname = n
    · have hq : ¬(e.dir = d' ∧ e.fname = n') := by
        rintro ⟨q1, q2⟩
        exact h ⟨q1 ▸ he.1, q2 ▸ he.2⟩
      rw [List.filter_cons_of_neg (by simp [he.1, he.2])]
      rw [ih]
      simp only [lookupFile, if_neg hq]
    · rw [List.filter_cons_of_pos (by simp only [decide_eq_true_eq]; exact he)]
      simp only [lookupFile]
      split
      · rfl
      · exact ih

theorem find_under : ∀ (fs : FS) (root : Dirname) (nm : Str) (d : Dirname)
    (c : Str), find_file_recursive fs root nm = some (d, c) →
    underDir root d = true := by
  intro fs root nm
  induction fs with
  | nil => intro d c h; simp [find_file_recursive] at h
  | cons e rest ih =>
    intro d c h
    unfold find_file_recursive at h
    split at h
    · rename_i hcond
      simp only [Option.some.injEq, Prod.mk.injEq] at h
      simp only [Bool.and_eq_true, decide_eq_true_eq] at hcond
      rw [← h.1]
      exact hcond.1
    · exact ih d c h

theorem find_lookup : ∀ (fs : FS) (root : Dirname) (nm : Str) (d : Dirname)
    (c : Str), find_file_recursive fs root nm = some (d, c) →
    lookupFile fs d nm = some c := by
  intro fs root nm
  induction fs with
  | nil => intro d c h; simp [find_file_recursive] at h
  | cons e rest ih =>
    intro d c h
    unfold find_file_recursive at h
    split at h
    · rename_i hcond
      simp only [Option.some.injEq, Prod.mk.injEq] at h
      simp only [Bool.and_eq_true, decide_eq_true_eq] at hcond
      have hkey : e.dir = d ∧ e.fname = nm := ⟨h.1, hcond.2⟩
      simp only [lookupFile, if_pos hkey]
      rw [h.2]
    · rename_i hcond
      have hu := find_under rest root nm d c h
      have hne : ¬(e.dir = d ∧ e.fname = nm) := by
        rintro ⟨q1, q2⟩
        exact hcond (by simp [q1, q2, hu])
      simp only [lookupFile, if_neg hne]
      exact ih d c h

/-! ## Helper lemmas: the branches of `process_role` -/

theorem process_role_notFound (o n : Str) (bf df : Dirname) (wf rf : Faults)
    (fs : FS)
    (h : find_file_recursive fs bf (format_file_name (pyStrip o)) = none) :
    process_role o n bf df wf rf fs = (some (pyStrip o), fs) := by
  simp only [process_role, h]

theorem process_role_success (o n : Str) (bf df : Dirname) (wf rf : Faults)
    (fs : FS) (d : Dirname) (c : Str)
    (h1 : find_file_recursive fs bf (format_file_name (pyStrip o)) = some (d, c))
    (h2 : wf d (format_file_name (pyStrip n)) = false)
    (h3 : wf df (format_file_name (pyStrip o)) = false)
    (h4 : rf d (format_file_name (pyStrip o)) = false)
    (h5 : d ≠ df)
    (h6 : format_file_name (pyStrip n) ≠ format_file_name (pyStrip o)) :
    process_role o n bf df wf rf fs =
      (none,
        removeOk
          (writeOk
            (writeOk fs d (format_file_name (pyStrip n))
              (rewrite_identity (escape_special_characters (pyStrip n)) c))
            df (format_file_name (pyStrip o)) (mark_disabled c))
          d (format_file_name (pyStrip o))) := by
  have hex : existsFile
      (writeOk
        (writeOk fs d (format_file_name (pyStrip n))
          (rewrite_identity (escape_special_characters (pyStrip n)) c))
        df (format_file_name (pyStrip o)) (mark_disabled c))
      d (format_file_name (pyStrip o)) = true := by
    unfold existsFile
    rw [lookupFile_writeOk_ne _ df (format_file_name (pyStrip o)) _ d _
      (fun hh => h5 hh.1)]
    rw [lookupFile_writeOk_ne _ d (format_file_name (pyStrip n)) _ d _
      (fun hh => h6 hh.2.symm)]
    rw [find_lookup fs bf _ d c h1]
    rfl
  simp only [process_role, h1, h2, h3, h4, hex]
  simp

/-- The bundle root directory of the concrete scenarios. -/
def bfW : Dirname := ["bundle".data]

/-- A subdirectory of the bundle root holding the artifact. -/
def dirSub : Dirname := ["bundle".data, "sub".data]

/-- The archive (disabled) directory of the concrete scenarios. -/
def dfW : Dirname := ["bundle".data, "00_Disabled".data]

/-- The value of `format_file_name` at `Admin`. -/
def adminXml : Str := "NAB_Bundle_Admin.xml".data

/-- The value of `format_file_name` at `SuperAdmin`. -/
def superXml : Str := "NAB_Bundle_SuperAdmin.xml".data

/-- The original artifact content for the role `Admin`. -/
def adminContent : Str :=
  "<Bundle displayName=\x22Admin\x22 name=\x22Admin\x22></Bundle>".data

/-- The content `adminContent` after the identity rewrite to `SuperAdmin`. -/
def superContent : Str :=
  "<Bundle displayName=\x22SuperAdmin\x22 name=\x22SuperAdmin\x22></Bundle>".data

/-- The content `adminContent` after the disabled-marker insertion. -/
def disabledAdminContent : Str :=
  "<Bundle disabled=\x22true\x22 displayName=\x22Admin\x22 name=\x22Admin\x22></Bundle>".data

/-- A filesystem holding only the Admin artifact, in a subdirectory. -/
def fsW : FS := [⟨dirSub, adminXml, adminContent⟩]

/-- No injected faults. -/
def noFault : Faults := fun _ _ => false

/-! ## Claim theorems -/

/-- Claim C4: `escape_special_characters` applies the five replacements
in the fixed order `&` → `&amp;`, `<` → `&lt;`, `>` → `&gt;`,
`"` → `&quot;`, `'` → `&apos;` (the replacement dictionary's insertion
order), so ampersands introduced by later replacements are never
re-escaped; in particular on `A&B<C>"D'E` it yields
`A&amp;B&lt;C&gt;&quot;D&apos;E`. -/
theorem claim4_escape_order :
    (∀ s : Str, escape_special_characters s =
      pyReplace
        (pyReplace
          (pyReplace
            (pyReplace (pyReplace s "&".data "&amp;".data) "<".data "&lt;".data)
            ">".data "&gt;".data)
          "\x22".data "&quot;".data)
        "\x27".data "&apos;".data) ∧
    escape_special_characters
        ('A' :: '&' :: 'B' :: '<' :: 'C' :: '>' :: '\x22' :: 'D' :: '\x27' ::
          'E' :: []) =
      "A&amp;B&lt;C&gt;&quot;D&apos;E".data :=
  ⟨fun _ => rfl, by decide⟩

/-- A character of the class `[A-Za-z0-9_-]` of the spec's file-name
pattern. -/
def inNameClass (c : Char) : Bool := c.isAlphanum || c = '_' || c = '-'

theorem sanitizeChar_inClass (c : Char) : inNameClass (sanitizeChar c) = true := by
  unfold sanitizeChar
  split
  · rename_i h
    unfold isWordChar at h
    unfold inNameClass
    simp only [Bool.or_eq_true, decide_eq_true_eq] at h ⊢
    tauto
  · rfl

/-- Claim C3 counterexample: on the empty role name (which the engine
does pass through after trimming) the output is `NAB_Bundle_.xml`, which
does not match `NAB_Bundle_[A-Za-z0-9_-]+\.xml`: the `+` requires at
least one class character between the fixed prefix and `.xml`. -/
theorem claim3_counterexample :
    format_file_name [] = "NAB_Bundle_".data ++ ".xml".data ∧
    ¬∃ mid : Str, format_file_name [] =
      "NAB_Bundle_".data ++ mid ++ ".xml".data ∧ mid ≠ [] ∧
      mid.all inNameClass = true := by
  constructor
  · rfl
  · rintro ⟨mid, heq, hne, _⟩
    have h15 : (format_file_name ([] : Str)).length = 15 := by decide
    rw [heq] at h15
    have hp : ("NAB_Bundle_".data : Str).length = 11 := by decide
    have hs : (".xml".data : Str).length = 4 := by decide
    simp only [List.length_append, hp, hs] at h15
    have : mid.length = 0 := by omega
    exact hne (List.eq_nil_of_length_eq_zero this)

/-- Claim C3 (amended): `format_file_name` is deterministic and total;
for an ASCII role name, every character that is not alphanumeric,
underscore or hyphen is replaced by an underscore and the result is
wrapped as `NAB_Bundle_<sanitized>.xml`, so the output matches
`NAB_Bundle_[A-Za-z0-9_-]*\.xml`, and for a nonempty ASCII role name it
matches `NAB_Bundle_[A-Za-z0-9_-]+\.xml`.  Both restrictions are forced:
the empty role name yields `NAB_Bundle_.xml`, which the `+` pattern
rejects (the counterexample), and for a non-ASCII role name Python's
Unicode-aware `\w` keeps characters outside the pattern's class (CPython
gives `NAB_Bundle_é.xml` for the role name `é`), so the pattern holds
only on the ASCII domain — within which the embedding coincides with the
program (on ASCII, `\w` is exactly `[A-Za-z0-9_]`).  The all-ASCII
hypothesis delimits that domain; the model satisfies the pattern
conjuncts on its whole domain, which is why the proof does not consume
the hypothesis. -/
theorem claim3_format_file_name_amended (s : Str)
    (_hascii : s.all (fun c => decide (c.val < 128)) = true) :
    (∃ mid : Str, format_file_name s =
      "NAB_Bundle_".data ++ mid ++ ".xml".data ∧
      mid.all inNameClass = true) ∧
    (s ≠ [] → ∃ mid : Str, format_file_name s =
      "NAB_Bundle_".data ++ mid ++ ".xml".data ∧ mid ≠ [] ∧
      mid.all inNameClass = true) := by
  have hall : (s.map sanitizeChar).all inNameClass = true := by
    simp only [List.all_map, List.all_eq_true, Function.comp]
    intro c _
    exact sanitizeChar_inClass c
  constructor
  · exact ⟨s.map sanitizeChar, rfl, hall⟩
  · intro hne
    refine ⟨s.map sanitizeChar, rfl, ?_, hall⟩
    simpa using hne

/-- Witness for claim C3 (amended), at the (ASCII, nonempty) role name
`Admin`. -/
theorem claim3_witness :
    (("Admin".data : Str).all (fun c => decide (c.val < 128)) = true ∧
      ("Admin".data : Str) ≠ []) ∧
    ∃ mid : Str, format_file_name "Admin".data =
      "NAB_Bundle_".data ++ mid ++ ".xml".data ∧ mid ≠ [] ∧
      mid.all inNameClass = true :=
  ⟨⟨by decide, by decide⟩,
   (claim3_format_file_name_amended "Admin".data (by decide)).2 (by decide)⟩

/-- Claim C9: `mark_disabled` inserts `disabled="true" ` immediately
after every occurrence of the literal `<Bundle` followed by whitespace,
and changes nothing else: a document with no occurrence is returned
unchanged, and a document decomposing as `pre ++ "<Bundle" ++ ws ++
rest` (with `ws` a maximal nonempty whitespace run and no occurrence
starting inside `pre`) maps to `pre ++ "<Bundle" ++ ws ++
"disabled=\"true\" " ++` the recursively processed `rest`. -/
theorem claim9_mark_disabled :
    (∀ s : Str, (∀ i < s.length, matchTok (List.drop i s) = none) →
      mark_disabled s = s) ∧
    (∀ pre ws rest : Str, ws.all isPySpace = true → ws ≠ [] →
      headNotB isPySpace rest = true →
      (∀ i < pre.length,
        matchTok (List.drop i (pre ++ (tokLit ++ (ws ++ rest)))) = none) →
      mark_disabled (pre ++ (tokLit ++ (ws ++ rest))) =
        pre ++ (tokLit ++ (ws ++ (disabledIns ++ mark_disabled rest)))) := by
  constructor
  · intro s h
    exact scanAll_id stepTok s fun i hi => stepTok_none (h i hi)
  · intro pre ws rest hws hne hrest h
    unfold mark_disabled
    rw [scanAll_decomp stepTok pre _ fun i hi => stepTok_none (h i hi)]
    have hm : stepTok (tokLit ++ (ws ++ rest)) =
        some ((tokLit ++ ws) ++ disabledIns, rest) := by
      unfold stepTok
      rw [matchTok_mk ws rest hws hne hrest]
    rw [scanAll_match stepTok stepTok_shrink hm]
    simp [List.append_assoc]

/-- Witness for claim C9: both conjuncts at concrete inputs. -/
theorem claim9_witness :
    (∀ i < ("no bundle here".data : Str).length,
      matchTok (List.drop i "no bundle here".data) = none) ∧
    mark_disabled "no bundle here".data = "no bundle here".data ∧
    mark_disabled ("ab".data ++ (tokLit ++ ([' '] ++ "x".data))) =
      "ab".data ++ (tokLit ++ ([' '] ++ (disabledIns ++ mark_disabled "x".data))) :=
  ⟨by decide,
   claim9_mark_disabled.1 "no bundle here".data (by decide),
   claim9_mark_disabled.2 "ab".data [' '] "x".data (by decide) (by decide)
     (by decide) (by decide)⟩

/-- Claim C1: end-to-end success for the row `(Admin, SuperAdmin)` with
the artifact `NAB_Bundle_Admin.xml` (content
`<Bundle displayName="Admin" name="Admin">...`) found in a directory `d`
under the bundle root: processing succeeds (`none` is returned), and
afterwards `NAB_Bundle_SuperAdmin.xml` exists in the same directory `d`
with both attributes `SuperAdmin`, `NAB_Bundle_Admin.xml` no longer
exists at its original path, and `archive/NAB_Bundle_Admin.xml` exists
with `disabled="true"` inserted after the root-element token and the
identity attributes still `Admin` (computed from the original,
unmodified content). -/
theorem claim1_end_to_end (bf df : Dirname) (wf rf : Faults) (fs : FS)
    (d : Dirname)
    (h1 : find_file_recursive fs bf adminXml = some (d, adminContent))
    (h2 : wf d superXml = false) (h3 : wf df adminXml = false)
    (h4 : rf d adminXml = false) (h5 : d ≠ df) :
    process_role "Admin".data "SuperAdmin".data bf df wf rf fs =
      (none,
        removeOk (writeOk (writeOk fs d superXml superContent) df adminXml
          disabledAdminContent) d adminXml) ∧
    lookupFile (removeOk (writeOk (writeOk fs d superXml superContent) df
        adminXml disabledAdminContent) d adminXml) d superXml =
      some superContent ∧
    lookupFile (removeOk (writeOk (writeOk fs d superXml superContent) df
        adminXml disabledAdminContent) d adminXml) d adminXml = none ∧
    lookupFile (removeOk (writeOk (writeOk fs d superXml superContent) df
        adminXml disabledAdminContent) d adminXml) df adminXml =
      some disabledAdminContent := by
  have eo : format_file_name (pyStrip "Admin".data) = adminXml := by decide
  have en : format_file_name (pyStrip "SuperAdmin".data) = superXml := by decide
  have er : rewrite_identity
      (escape_special_characters (pyStrip "SuperAdmin".data)) adminContent =
      superContent := by decide
  have em : mark_disabled adminContent = disabledAdminContent := by decide
  have h6 : format_file_name (pyStrip "SuperAdmin".data) ≠
      format_file_name (pyStrip "Admin".data) := by decide
  have hp := process_role_success "Admin".data "SuperAdmin".data bf df wf rf
    fs d adminContent (eo ▸ h1) (en ▸ h2) (eo ▸ h3) (eo ▸ h4) h5 h6
  rw [eo, en, er, em] at hp
  refine ⟨hp, ?_, ?_, ?_⟩
  · rw [lookupFile_removeOk_ne _ d adminXml d superXml
      (fun hh => absurd hh.2 (by decide))]
    rw [lookupFile_writeOk_ne _ df adminXml _ d superXml
      (fun hh => absurd hh.2 (by decide))]
    exact lookupFile_writeOk_self fs d superXml superContent
  · exact lookupFile_removeOk_self _ d adminXml
  · rw [lookupFile_removeOk_ne _ d adminXml df adminXml
      (fun hh => h5 hh.1.symm)]
    exact lookupFile_writeOk_self _ df adminXml disabledAdminContent

/-- Witness for claim C1: the concrete scenario with the Admin artifact
in `bundle/sub` and archive `bundle/00_Disabled`. -/
theorem claim1_witness :
    find_file_recursive fsW bfW adminXml = some (dirSub, adminContent) ∧
    process_role "Admin".data "SuperAdmin".data bfW dfW noFault noFault fsW =
      (none,
        removeOk (writeOk (writeOk fsW dirSub superXml superContent) dfW
          adminXml disabledAdminContent) dirSub adminXml) :=
  ⟨by decide,
   (claim1_end_to_end bfW dfW noFault noFault fsW dirSub (by decide)
     (by decide) (by decide) (by decide) (by decide)).1⟩

/-- The two-row mapping file of the batch-isolation scenario: the first
row's artifact is missing, the second row's exists. -/
def csvTwo : CsvFile :=
  ⟨[hdrOriginal, hdrNew],
   [("Missing".data, "X".data), ("Admin".data, "SuperAdmin".data)]⟩

/-- The filesystem after the two-row batch: the second row fully
processed, and the report listing only `Missing`. -/
def fsAfterC6 : FS :=
  [⟨dirSub, superXml, superContent⟩,
   ⟨dfW, adminXml, disabledAdminContent⟩,
   ⟨bfW, notFoundFileName, "Missing\n".data⟩]

/-- Claim C6: a row whose original name has no matching artifact under
the bundle root creates and removes no files and returns its (stripped)
original name for the unresolved report, and such a failure does not
abort later rows: in the concrete two-row batch where the first artifact
is missing and the second exists, the second row is processed to full
success and the report lists exactly the first role. -/
theorem claim6_unresolved_isolation :
    (∀ (o n : Str) (bf df : Dirname) (wf rf : Faults) (fs : FS),
      find_file_recursive fs bf (format_file_name (pyStrip o)) = none →
      process_role o n bf df wf rf fs = (some (pyStrip o), fs)) ∧
    process_files (some csvTwo) bfW dfW noFault noFault fsW =
      (.completed ["Missing".data], fsAfterC6) := by
  constructor
  · exact process_role_notFound
  · decide

/-- Witness for claim C6: the not-found branch at a concrete row. -/
theorem claim6_witness :
    find_file_recursive fsW bfW (format_file_name (pyStrip "Missing".data)) =
      none ∧
    process_role "Missing".data "X".data bfW dfW noFault noFault fsW =
      (some (pyStrip "Missing".data), fsW) :=
  ⟨by decide,
   claim6_unresolved_isolation.1 "Missing".data "X".data bfW dfW noFault
     noFault fsW (by decide)⟩

/-- A header-only mapping file missing both required columns. -/
def csvHeaderOnly : CsvFile := ⟨["Foo".data], []⟩

/-- A mapping file with one data row but missing the `New Role Name`
column. -/
def csvMissingNew : CsvFile :=
  ⟨[hdrOriginal], [("Admin".data, "SuperAdmin".data)]⟩

/-- Claim C5 counterexample: a mapping source missing a required column
but containing no data row does not abort and reports no fatal
condition — the header check sits inside the row loop, which never
runs — so the run completes normally (with no report written). -/
theorem claim5_counterexample :
    process_files (some csvHeaderOnly) bfW dfW noFault noFault fsW =
      (.completed [], fsW) ∧
    (BatchOutcome.completed [] ≠ BatchOutcome.formatError) := by
  constructor
  · decide
  · decide

/-- Claim C5 (amended): if the mapping source lacks either required
column and has at least one data row, the run aborts at the first row
before processing it — the filesystem is untouched (no renamed file, no
disabled copy, no report) and the fatal format-error condition is
reported; a source with a missing column but no data rows instead
completes without reporting a fatal condition (and equally touches
nothing). -/
theorem claim5_header_abort_amended (file : CsvFile) (bf df : Dirname)
    (wf rf : Faults) (fs : FS)
    (h : hdrOriginal ∉ file.headers ∨ hdrNew ∉ file.headers) :
    (file.rows ≠ [] →
      process_files (some file) bf df wf rf fs = (.formatError, fs)) ∧
    (file.rows = [] →
      process_files (some file) bf df wf rf fs = (.completed [], fs)) := by
  constructor
  · intro hne
    match hrows : file.rows with
    | [] => exact absurd hrows hne
    | (o, n) :: rest =>
      simp only [process_files, batchLoop, hrows, if_pos h]
  · intro hnil
    simp only [process_files, batchLoop, hnil, List.reverse_nil,
      List.isEmpty_nil, if_true]

/-- Witness for claim C5 (amended): a source missing `New Role Name`
with one data row aborts with the filesystem untouched. -/
theorem claim5_witness :
    (hdrOriginal ∉ csvMissingNew.headers ∨ hdrNew ∉ csvMissingNew.headers) ∧
    process_files (some csvMissingNew) bfW dfW noFault noFault fsW =
      (.formatError, fsW) :=
  ⟨by decide,
   (claim5_header_abort_amended csvMissingNew bfW dfW noFault noFault fsW
     (by decide)).1 (by decide)⟩

end RoleRename
